import Mathlib

/-!
Verification of the ytdl-gui frontend against its specification.

The development shallowly embeds the relevant code of
`src/frontend/src/App.tsx` and `src/unnamed/part_000` (App component and
`VideoStorageService`).  Times and durations are modelled as rationals,
milliseconds as naturals, blobs as an abstract type parameter.
-/

namespace YtdlGui

/-! ## Clip-range mutations

From `handleTimelineClick` and `handleMouseMove` in the App component:

  setStartTime(Math.max(0, Math.min(time, endTime - 1)))
  setEndTime(Math.min(videoInfo.duration, Math.max(time, startTime + 1)))

The click handler guards on `time >= 0 && time <= videoInfo.duration` and
picks the branch by `Math.abs(time - startTime) < Math.abs(time - endTime)`.
The drag handler (`handleMouseMove`) clamps the click position into the
timeline, so its `time` lies in `[0, duration]`; we carry that as a
hypothesis on `t`.
-/

/-- The new start value set by the handlers: `Math.max(0, Math.min(time, endTime - 1))`. -/
def clampStart (e t : ℚ) : ℚ := max 0 (min t (e - 1))

/-- The new end value set by the handlers: `Math.min(duration, Math.max(time, startTime + 1))`. -/
def clampEnd (D s t : ℚ) : ℚ := min D (max t (s + 1))

/-- `handleTimelineClick`: duration `D`, current range `(s, e)`, click time `t`;
returns the new `(startTime, endTime)` pair. -/
def handleTimelineClick (D s e t : ℚ) : ℚ × ℚ :=
  if 0 ≤ t ∧ t ≤ D then
    if |t - s| < |t - e| then (clampStart e t, e) else (s, clampEnd D s t)
  else (s, e)

/-- Which handle is being dragged (`isDragging` is `'start'` or `'end'`). -/
inductive DragEdge where
  | startEdge
  | endEdge
deriving DecidableEq

/-- `handleMouseMove`: dragging `edge` of range `(s, e)` to time `t` on a
video of duration `D`; returns the new `(startTime, endTime)` pair. -/
def handleMouseMove (edge : DragEdge) (D s e t : ℚ) : ℚ × ℚ :=
  match edge with
  | .startEdge => (clampStart e t, e)
  | .endEdge => (s, clampEnd D s t)

/-- The ClipRange invariant of the spec: both edges in `[0, D]` and a span
of at least one second. -/
def rangeInvariant (D : ℚ) (p : ℚ × ℚ) : Prop :=
  0 ≤ p.1 ∧ p.1 ≤ D ∧ 0 ≤ p.2 ∧ p.2 ≤ D ∧ 1 ≤ p.2 - p.1

/-! ## VideoStorageService

From `src/frontend/src/App.tsx` (the `VideoStorage` service): an IndexedDB
object store with `keyPath: 'url'`.  We model the store contents as a list
of records with pairwise distinct `url` keys; `put` replaces any record
with the same key, `get` looks the key up, `delete` removes it.  The blob
is an abstract type parameter `β`.
-/

/-- `StoredVideo` record (the spec's MediaRecord): `timestamp` is epoch
milliseconds, `duration` seconds. -/
structure StoredVideo (β : Type) where
  url : String
  title : String
  blob : β
  timestamp : ℤ
  duration : ℚ
  thumbnails : List String
deriving DecidableEq

/-- `storeVideo` / IndexedDB `put`: insert or silently overwrite by key. -/
def storeVideo {β : Type} (s : List (StoredVideo β)) (v : StoredVideo β) :
    List (StoredVideo β) :=
  v :: s.filter (fun w => w.url != v.url)

/-- `getVideo` / IndexedDB `get`: the record stored under `u`, if any. -/
def getVideo {β : Type} (s : List (StoredVideo β)) (u : String) :
    Option (StoredVideo β) :=
  s.find? (fun w => w.url == u)

/-- `getAllVideos`: a snapshot of all stored records. -/
def getAllVideos {β : Type} (s : List (StoredVideo β)) : List (StoredVideo β) := s

/-- `deleteVideo`: remove the record stored under `u` (no-op when absent). -/
def deleteVideo {β : Type} (s : List (StoredVideo β)) (u : String) :
    List (StoredVideo β) :=
  s.filter (fun w => w.url != u)

/-- The 24-hour TTL, in milliseconds (`const dayInMs = 24 * 60 * 60 * 1000`). -/
def dayInMs : ℤ := 24 * 60 * 60 * 1000

/-- `cleanup`: snapshot the store with `getAllVideos`, then delete every
record whose age `now - video.timestamp` strictly exceeds `dayInMs`. -/
def cleanup {β : Type} (now : ℤ) (s : List (StoredVideo β)) :
    List (StoredVideo β) :=
  (getAllVideos s).foldl
    (fun acc v => if dayInMs < now - v.timestamp then deleteVideo acc v.url else acc)
    s

/-! ## Controller: `handleGetFormats` (from `src/unnamed/part_000`)

On submit the controller checks the cache; on a miss it queries `/formats`,
picks the FIRST format whose `has_audio` is true as the preview format (or
fails), downloads that format, generates thumbnails, and only then writes
the composite record to the store.  Network and sampling are modelled as
oracles: `resp` is the parsed `/formats` response (`none` = request
failed), `download` maps a `format_id` to a blob (`none` = download
failed), `genThumbs` returns the thumbnail list or an error message.
-/

/-- One entry of the `/formats` response. -/
structure VideoFormat where
  format_id : String
  quality : String
  ext : String
  filesize : ℤ ⊕ String
  resolution : String
  has_audio : Bool
  url : String
deriving DecidableEq

/-- The parsed `/formats` response. -/
structure VideoInfo where
  title : String
  duration : ℚ
  formats : List VideoFormat
deriving DecidableEq

/-- The observable outcome of one `handleGetFormats` run: the store after
the run, the `format_id` sent to `/download` (if a request was issued), the
result (`ok` record shown as Ready, or the surfaced error message), and the
final `loading` flag (set `false` in the `finally` block, so a new submit
is allowed). -/
structure FetchOutcome (β : Type) where
  store : List (StoredVideo β)
  requestedFormat : Option String
  result : Except String (StoredVideo β)
  loading : Bool

/-- `handleGetFormats`, for a submitted URL `u` at time `now`. -/
def handleGetFormats {β : Type} (store : List (StoredVideo β)) (u : String)
    (resp : Option VideoInfo) (download : String → Option β)
    (genThumbs : β → Except String (List String)) (now : ℤ) : FetchOutcome β :=
  match getVideo store u with
  | some v => ⟨store, none, .ok v, false⟩
  | none =>
    match resp with
    | none => ⟨store, none, .error "Failed to get video formats", false⟩
    | some info =>
      match info.formats.find? (fun f => f.has_audio) with
      | none => ⟨store, none, .error "No suitable preview format found", false⟩
      | some previewFormat =>
        match download previewFormat.format_id with
        | none =>
          ⟨store, some previewFormat.format_id, .error "Failed to get video preview", false⟩
        | some blob =>
          match genThumbs blob with
          | .error msg => ⟨store, some previewFormat.format_id, .error msg, false⟩
          | .ok thumbs =>
            let record : StoredVideo β := ⟨u, info.title, blob, now, info.duration, thumbs⟩
            ⟨storeVideo store record, some previewFormat.format_id, .ok record, false⟩

/-! ## Thumbnail sampler: `generateThumbnails`

The method creates an object URL for the blob, loads it into a video
element, and for `i = 0 .. numThumbnails-1` seeks to
`time = duration * i / numThumbnails`, racing each seek against a 5-second
timer (`SeekTimeout`) and the whole run against a 30-second timer set at
the start and never cleared.  The promise settles once: with the thumbnail
list if the loop finishes first, with the seek-timeout error if a 5-second
timer fires first, with the generation-timeout error if the 30-second
timer fires first, and with a decode error if the video fails to load.

We model frame capture (`drawImage` + `toDataURL`) as an abstract function
`capture` of the seek timestamp, and the decoder's seek latency as
`seekMs i` milliseconds for the `i`-th seek (`none` = the `seeked` event
never fires).  Alongside the outcome the model records a timed event trace:
object-URL creation/revocation and timer registration/clearing/firing,
where timer id 0 is the 30-second whole-operation timer and timer id
`i + 1` is the 5-second timer of seek `i`.  When two events fall on the
same millisecond the loop's own event is taken to precede a timer firing.
-/

/-- The per-seek timeout: 5000 ms. -/
def seekTimeoutMs : ℕ := 5000

/-- The whole-operation timeout: 30000 ms. -/
def totalTimeoutMs : ℕ := 30000

/-- The errors `generateThumbnails` can reject with. -/
inductive ThumbErr where
  | seekTimeout
  | generationTimeout
  | decodeError
deriving DecidableEq

/-- Timed resource events of one `generateThumbnails` run. -/
inductive TEv where
  | createURL
  | revoke
  | setT (id : ℕ)
  | clearT (id : ℕ)
  | fireT (id : ℕ)
deriving DecidableEq

/-- Result of the sampling loop alone (ignoring the 30-second timer):
when it settles, whether it resolved (`ok`) or hit a seek timeout
(`error`), and the events it produces — including ones after 30000 ms,
which in the real run happen after the promise has already settled. -/
structure LoopRes (α : Type) where
  settleAt : ℕ
  outcome : Except Unit (List α)
  events : List (ℕ × TEv)

/-- The `i`-th sample timestamp: `(duration * i) / numThumbnails`. -/
def sampleTime (D : ℚ) (N i : ℕ) : ℚ := D * i / N

/-- The sampling loop over the remaining seek indices.  A seek whose
`seeked` event needs more than 5000 ms (or never fires) loses the race
against its 5-second timer and rejects the run at `elapsed + 5000`. -/
def thumbLoop {α : Type} (capture : ℚ → α) (seekMs : ℕ → Option ℕ) (D : ℚ) (N : ℕ)
    (elapsed : ℕ) (acc : List α) (evs : List (ℕ × TEv)) :
    List ℕ → LoopRes α
  | [] => ⟨elapsed, .ok acc, evs ++ [(elapsed, .revoke)]⟩
  | i :: rest =>
    match seekMs i with
    | none =>
      ⟨elapsed + seekTimeoutMs, .error (),
        evs ++ [(elapsed, TEv.setT (i + 1)),
                (elapsed + seekTimeoutMs, TEv.fireT (i + 1)),
                (elapsed + seekTimeoutMs, TEv.revoke)]⟩
    | some d =>
      if seekTimeoutMs < d then
        ⟨elapsed + seekTimeoutMs, .error (),
          evs ++ [(elapsed, TEv.setT (i + 1)),
                  (elapsed + seekTimeoutMs, TEv.fireT (i + 1)),
                  (elapsed + seekTimeoutMs, TEv.revoke)]⟩
      else
        thumbLoop capture seekMs D N (elapsed + d)
          (acc ++ [capture (sampleTime D N i)])
          (evs ++ [(elapsed, TEv.setT (i + 1)), (elapsed + d, TEv.clearT (i + 1))])
          rest

/-- One full `generateThumbnails` run: settle time, settled result, and
event trace.  `decodes = false` is the `video.onerror` path (the blob is
not decodable).  The 30-second timer (id 0) always fires at 30000 ms —
the code never clears it — revoking the URL a second time and issuing a
reject that is a no-op when the promise has already settled. -/
def generateThumbnailsRun {α : Type} (decodes : Bool) (capture : ℚ → α)
    (seekMs : ℕ → Option ℕ) (D : ℚ) (N : ℕ) :
    ℕ × Except ThumbErr (List α) × List (ℕ × TEv) :=
  match decodes with
  | false =>
    (0, .error ThumbErr.decodeError,
      [(0, TEv.createURL), (0, TEv.setT 0), (0, TEv.revoke),
       (totalTimeoutMs, TEv.fireT 0), (totalTimeoutMs, TEv.revoke)])
  | true =>
    let r := thumbLoop capture seekMs D N 0 [] [] (List.range N)
    let evs := (0, TEv.createURL) :: (0, TEv.setT 0) :: r.events
      ++ [(totalTimeoutMs, TEv.fireT 0), (totalTimeoutMs, TEv.revoke)]
    if r.settleAt ≤ totalTimeoutMs then
      (r.settleAt,
        (match r.outcome with
         | .ok l => .ok l
         | .error _ => .error ThumbErr.seekTimeout),
        evs)
    else
      (totalTimeoutMs, .error ThumbErr.generationTimeout, evs)

/-- What the caller of `generateThumbnails` receives. -/
def generateThumbnails {α : Type} (decodes : Bool) (capture : ℚ → α)
    (seekMs : ℕ → Option ℕ) (D : ℚ) (N : ℕ) : Except ThumbErr (List α) :=
  (generateThumbnailsRun decodes capture seekMs D N).2.1

/-- The time at which the promise settles. -/
def gtSettleAt {α : Type} (decodes : Bool) (capture : ℚ → α)
    (seekMs : ℕ → Option ℕ) (D : ℚ) (N : ℕ) : ℕ :=
  (generateThumbnailsRun decodes capture seekMs D N).1

/-- The event trace of the run. -/
def gtEvents {α : Type} (decodes : Bool) (capture : ℚ → α)
    (seekMs : ℕ → Option ℕ) (D : ℚ) (N : ℕ) : List (ℕ × TEv) :=
  (generateThumbnailsRun decodes capture seekMs D N).2.2

/-- Timer ids registered at or before time `s`. -/
def timersSet (evs : List (ℕ × TEv)) (s : ℕ) : List ℕ :=
  evs.filterMap (fun e =>
    match e with
    | (t, TEv.setT i) => if t ≤ s then some i else none
    | _ => none)

/-- Timer ids cleared, or already fired, at or before time `s`. -/
def timersStopped (evs : List (ℕ × TEv)) (s : ℕ) : List ℕ :=
  evs.filterMap (fun e =>
    match e with
    | (t, TEv.clearT i) => if t ≤ s then some i else none
    | (t, TEv.fireT i) => if t ≤ s then some i else none
    | _ => none)

/-- Timer ids still pending when the run settles at time `s`: registered
but neither cleared nor fired yet. -/
def pendingAtSettle (evs : List (ℕ × TEv)) (s : ℕ) : List ℕ :=
  (timersSet evs s).filter (fun i => decide (i ∉ timersStopped evs s))

/-- Whether the object URL has been revoked by the time the run settles. -/
def revokedBySettle (evs : List (ℕ × TEv)) (s : ℕ) : Bool :=
  evs.any (fun e => e.1 ≤ s && e.2 == TEv.revoke)

/-- Total seek latency of the first `N` seeks (the loop's finish time when
every seek completes). -/
def sumSeekMs (seekMs : ℕ → Option ℕ) (N : ℕ) : ℕ :=
  ((List.range N).map (fun i => (seekMs i).getD 0)).sum

/-- A seek that loses the race against its 5-second timer: the `seeked`
event never fires or needs more than 5000 ms. -/
def seekBad (seekMs : ℕ → Option ℕ) (i : ℕ) : Prop :=
  seekMs i = none ∨ ∃ d, seekMs i = some d ∧ seekTimeoutMs < d

/-- C1 (counterexample).  The claim says that when `|t - start| = |t - end|`
the start edge is the one moved.  On a 100-second video with range `[10, 20]`,
a click at `t = 15` has equal distances `5 = 5`, yet the code's strict `<`
test sends the tie to the `else` branch: the end edge moves to 15 and the
start edge stays at 10. -/
theorem timelineClick_tie_counterexample :
    |(15 : ℚ) - 10| = |(15 : ℚ) - 20| ∧
    handleTimelineClick 100 10 20 15 = (10, 15) ∧
    (handleTimelineClick 100 10 20 15).1 ≠ 15 := by
  have habs : |(15 : ℚ) - 10| = |(15 : ℚ) - 20| := by
    rw [abs_of_nonneg (by norm_num), abs_of_nonpos (by norm_num)]
    norm_num
  have hres : handleTimelineClick 100 10 20 15 = (10, 15) := by
    unfold handleTimelineClick clampEnd
    rw [if_pos (by norm_num), if_neg (by rw [habs]; exact lt_irrefl _)]
    norm_num [max_def, min_def]
  refine ⟨habs, hres, ?_⟩
  rw [hres]
  norm_num

/-- C1 (amended).  For a click at `t` with `0 ≤ t ≤ D`: the strictly nearer
edge (by absolute time distance) is the one moved, but a tie moves the END
edge, not the start edge; the moved edge is set to the clamped click time.
In particular a click at `t = 30` on a 100-second video with range `[10, 20]`
moves the end to 30 (see the witness). -/
theorem timelineClick_moves_nearer_edge (D s e t : ℚ) (h0 : 0 ≤ t) (hD : t ≤ D) :
    (|t - s| < |t - e| → handleTimelineClick D s e t = (clampStart e t, e)) ∧
    (|t - e| ≤ |t - s| → handleTimelineClick D s e t = (s, clampEnd D s t)) := by
  constructor
  · intro hlt
    unfold handleTimelineClick
    rw [if_pos ⟨h0, hD⟩, if_pos hlt]
  · intro hle
    unfold handleTimelineClick
    rw [if_pos ⟨h0, hD⟩, if_neg (not_lt.mpr hle)]

/-- C1 (witness): the spec's own example, a click at 30 on a 100-second video
with range `[10, 20]`, moves the end edge to 30. -/
theorem timelineClick_moves_nearer_edge_witness :
    handleTimelineClick 100 10 20 30 = (10, 30) := by
  have hle : |(30 : ℚ) - 20| ≤ |(30 : ℚ) - 10| := by
    rw [abs_of_nonneg (by norm_num), abs_of_nonneg (by norm_num)]
    norm_num
  have h := (timelineClick_moves_nearer_edge 100 10 20 30 (by norm_num) (by norm_num)).2 hle
  rw [h]
  unfold clampEnd
  norm_num [max_def, min_def]

/-- C2 (counterexample).  The claim asserts that EVERY mutation yields a
range inside `[0, D]` with span at least 1.  But a mutation only rewrites
the edge being moved: starting from the App's initial range `(0, 10)` on a
5-second video, dragging the start handle to the valid target `t = 2`
leaves the end at 10, which exceeds the duration 5. -/
theorem clipRange_invariant_counterexample :
    (0 : ℚ) ≤ 2 ∧ (2 : ℚ) ≤ 5 ∧
    handleMouseMove .startEdge 5 0 10 2 = (2, 10) ∧
    ¬ rangeInvariant 5 (handleMouseMove .startEdge 5 0 10 2) := by
  have hres : handleMouseMove .startEdge 5 0 10 2 = (2, 10) := by
    unfold handleMouseMove clampStart
    norm_num [max_def, min_def]
  refine ⟨by norm_num, by norm_num, hres, ?_⟩
  rw [hres]
  intro h
  exact absurd h.2.2.2.1 (by norm_num)

/-- C2 (amended).  The mutation handlers PRESERVE the invariant rather than
establish it: if the range before the mutation satisfies
`0 ≤ start`, `end ≤ D`, `end - start ≥ 1`, then after any drag of either
handle and after any timeline click to a target `t ∈ [0, D]` the full
invariant `0 ≤ start ≤ D`, `0 ≤ end ≤ D`, `end - start ≥ 1` holds again. -/
theorem clipRange_mutation_preserves_invariant (edge : DragEdge) (D s e t : ℚ)
    (hs : 0 ≤ s) (he : e ≤ D) (hspan : 1 ≤ e - s) (h0 : 0 ≤ t) (hD : t ≤ D) :
    rangeInvariant D (handleMouseMove edge D s e t) ∧
    rangeInvariant D (handleTimelineClick D s e t) := by
  have hstart : rangeInvariant D (clampStart e t, e) := by
    unfold rangeInvariant clampStart
    dsimp only
    refine ⟨le_max_left _ _, ?_, by linarith, he, ?_⟩
    · apply max_le (by linarith)
      calc min t (e - 1) ≤ t := min_le_left _ _
        _ ≤ D := hD
    · have h1 : max 0 (min t (e - 1)) ≤ e - 1 :=
        max_le (by linarith) (min_le_right _ _)
      linarith
  have hend : rangeInvariant D (s, clampEnd D s t) := by
    unfold rangeInvariant clampEnd
    dsimp only
    refine ⟨hs, by linarith, ?_, min_le_left _ _, ?_⟩
    · apply le_min (by linarith)
      calc (0 : ℚ) ≤ t := h0
        _ ≤ max t (s + 1) := le_max_left _ _
    · have h1 : s + 1 ≤ min D (max t (s + 1)) :=
        le_min (by linarith) (le_max_right _ _)
      linarith
  refine ⟨?_, ?_⟩
  · cases edge with
    | startEdge => exact hstart
    | endEdge => exact hend
  · unfold handleTimelineClick
    rw [if_pos ⟨h0, hD⟩]
    by_cases hlt : |t - s| < |t - e|
    · rw [if_pos hlt]; exact hstart
    · rw [if_neg hlt]; exact hend

/-- C2 (witness): a concrete preserved mutation — dragging the end handle of
range `(10, 20)` to `t = 50` on a 100-second video yields a range satisfying
the invariant. -/
theorem clipRange_mutation_preserves_invariant_witness :
    rangeInvariant 100 (handleMouseMove .endEdge 100 10 20 50) :=
  (clipRange_mutation_preserves_invariant .endEdge 100 10 20 50
    (by norm_num) (by norm_num) (by norm_num) (by norm_num) (by norm_num)).1

theorem mem_deleteVideo {β : Type} {s : List (StoredVideo β)} {u : String}
    {w : StoredVideo β} : w ∈ deleteVideo s u ↔ w ∈ s ∧ w.url ≠ u := by
  unfold deleteVideo
  rw [List.mem_filter]
  simp [bne_iff_ne]

theorem cleanup_foldl_mem {β : Type} (now : ℤ) :
    ∀ (snap s : List (StoredVideo β)) (w : StoredVideo β),
      (w ∈ snap.foldl
          (fun acc v => if dayInMs < now - v.timestamp then deleteVideo acc v.url else acc)
          s) ↔
        (w ∈ s ∧ ∀ v ∈ snap, dayInMs < now - v.timestamp → w.url ≠ v.url) := by
  intro snap
  induction snap with
  | nil => intro s w; simp
  | cons v rest ih =>
    intro s w
    rw [List.foldl_cons]
    by_cases hv : dayInMs < now - v.timestamp
    · rw [if_pos hv, ih, mem_deleteVideo]
      constructor
      · rintro ⟨⟨hw, hne⟩, hall⟩
        refine ⟨hw, fun v' hv' hold => ?_⟩
        rcases List.mem_cons.mp hv' with rfl | h'
        · exact hne
        · exact hall v' h' hold
      · rintro ⟨hw, hall⟩
        exact ⟨⟨hw, hall v (List.mem_cons_self v rest) hv⟩,
          fun v' hv' hold => hall v' (List.mem_cons_of_mem v hv') hold⟩
    · rw [if_neg hv, ih]
      constructor
      · rintro ⟨hw, hall⟩
        refine ⟨hw, fun v' hv' hold => ?_⟩
        rcases List.mem_cons.mp hv' with rfl | h'
        · exact absurd hold hv
        · exact hall v' h' hold
      · rintro ⟨hw, hall⟩
        exact ⟨hw, fun v' hv' hold => hall v' (List.mem_cons_of_mem v hv') hold⟩

/-- C6.  For a store with pairwise distinct keys (the IndexedDB `keyPath`
invariant), the sweep keeps exactly the records whose age is at most 24
hours: a record survives `cleanup` iff it was present and
`now - timestamp ≤ dayInMs` (so anything strictly older than `now - 24h`
is deleted and everything younger stays); sweeping the empty store yields
the empty store. -/
theorem cleanup_deletes_exactly_expired {β : Type} (now : ℤ)
    (s : List (StoredVideo β)) (hkeys : (s.map (fun v => v.url)).Nodup) :
    (∀ v, v ∈ cleanup now s ↔ (v ∈ s ∧ now - v.timestamp ≤ dayInMs)) ∧
    cleanup now ([] : List (StoredVideo β)) = [] := by
  constructor
  · intro v
    unfold cleanup getAllVideos
    rw [cleanup_foldl_mem]
    constructor
    · rintro ⟨hv, hall⟩
      refine ⟨hv, ?_⟩
      by_contra hlt
      push_neg at hlt
      exact hall v hv hlt rfl
    · rintro ⟨hv, hle⟩
      refine ⟨hv, fun v' hv' hold hurl => ?_⟩
      have hvv : v = v' := List.inj_on_of_nodup_map hkeys hv hv' hurl
      rw [← hvv] at hold
      exact absurd hold (not_lt.mpr hle)
  · rfl

/-- C6 (witness): with `now = 100000000`, a record created 25 hours ago
(`timestamp = now - 90000000`) is absent after the sweep while one created
1 hour ago (`timestamp = now - 3600000`) is still present. -/
theorem cleanup_deletes_exactly_expired_witness :
    (⟨"a", "old", (), 10000000, 5, []⟩ : StoredVideo Unit) ∉
      cleanup 100000000
        [⟨"a", "old", (), 10000000, 5, []⟩, ⟨"b", "young", (), 96400000, 5, []⟩] ∧
    (⟨"b", "young", (), 96400000, 5, []⟩ : StoredVideo Unit) ∈
      cleanup 100000000
        [⟨"a", "old", (), 10000000, 5, []⟩, ⟨"b", "young", (), 96400000, 5, []⟩] := by
  have h := (cleanup_deletes_exactly_expired 100000000
    [⟨"a", "old", (), 10000000, 5, []⟩, ⟨"b", "young", (), 96400000, 5, []⟩]
    (by decide)).1
  constructor
  · intro hmem
    exact absurd ((h _).mp hmem).2 (by decide)
  · exact (h _).mpr ⟨by decide, by decide⟩

/-- C9.  Round-trip and last-write-wins: storing `v` and reading back its
key returns `v` itself, equal in all fields; storing a second record `v₂`
under the same key silently overwrites, so the same read now returns
`v₂`. -/
theorem storeVideo_getVideo_roundtrip {β : Type} (s : List (StoredVideo β))
    (v v₂ : StoredVideo β) (h : v₂.url = v.url) :
    getVideo (storeVideo s v) v.url = some v ∧
    getVideo (storeVideo (storeVideo s v) v₂) v.url = some v₂ := by
  constructor
  · unfold getVideo storeVideo
    exact List.find?_cons_of_pos _ (by simp)
  · unfold getVideo storeVideo
    exact List.find?_cons_of_pos _ (by simp [h])

/-- C9 (witness): round-trip then overwrite under key `"k"` on the empty
store. -/
theorem storeVideo_getVideo_roundtrip_witness :
    getVideo (storeVideo ([] : List (StoredVideo Unit)) ⟨"k", "t1", (), 0, 1, []⟩) "k" =
      some ⟨"k", "t1", (), 0, 1, []⟩ ∧
    getVideo (storeVideo (storeVideo ([] : List (StoredVideo Unit)) ⟨"k", "t1", (), 0, 1, []⟩)
      ⟨"k", "t2", (), 5, 2, ["x"]⟩) "k" = some ⟨"k", "t2", (), 5, 2, ["x"]⟩ :=
  storeVideo_getVideo_roundtrip [] ⟨"k", "t1", (), 0, 1, []⟩ ⟨"k", "t2", (), 5, 2, ["x"]⟩ rfl

/-- C7.  On a cache miss with a successful `/formats` response: the
`/download` request carries the `format_id` of the FIRST format whose
`has_audio` is true; if no format carries audio the run fails with the
surfaced error and leaves `loading = false` (a new submit is allowed); and
any successfully persisted record has `url` (the sourceKey) equal to the
submitted URL. -/
theorem handleGetFormats_preview_format {β : Type} (store : List (StoredVideo β))
    (u : String) (info : VideoInfo) (download : String → Option β)
    (genThumbs : β → Except String (List String)) (now : ℤ)
    (hmiss : getVideo store u = none) :
    (∀ f, info.formats.find? (fun g => g.has_audio) = some f →
        (handleGetFormats store u (some info) download genThumbs now).requestedFormat =
          some f.format_id) ∧
    (info.formats.find? (fun g => g.has_audio) = none →
        (handleGetFormats store u (some info) download genThumbs now).result =
          .error "No suitable preview format found" ∧
        (handleGetFormats store u (some info) download genThumbs now).loading = false) ∧
    (∀ r, (handleGetFormats store u (some info) download genThumbs now).result = .ok r →
        r.url = u) := by
  refine ⟨?_, ?_, ?_⟩
  · intro f hf
    rcases hd : download f.format_id with _ | b
    · simp [handleGetFormats, hmiss, hf, hd]
    · rcases ht : genThumbs b with msg | thumbs
      · simp [handleGetFormats, hmiss, hf, hd, ht]
      · simp [handleGetFormats, hmiss, hf, hd, ht]
  · intro hf
    simp [handleGetFormats, hmiss, hf]
  · intro r
    rcases hfind : info.formats.find? (fun g => g.has_audio) with _ | f
    · intro hr
      simp only [handleGetFormats, hmiss, hfind] at hr
      exact Except.noConfusion hr
    · rcases hd : download f.format_id with _ | b
      · intro hr
        simp only [handleGetFormats, hmiss, hfind, hd] at hr
        exact Except.noConfusion hr
      · rcases ht : genThumbs b with msg | thumbs
        · intro hr
          simp only [handleGetFormats, hmiss, hfind, hd, ht] at hr
          exact Except.noConfusion hr
        · intro hr
          simp only [handleGetFormats, hmiss, hfind, hd, ht] at hr
          cases hr
          rfl

/-- C7 (witness): the spec's end-to-end example — formats
`[{id "a", no audio}, {id "b", audio}]` make the preview request carry
`"b"`, and the resulting record's key is the submitted URL `"u"`. -/
theorem handleGetFormats_preview_format_witness :
    (handleGetFormats ([] : List (StoredVideo Unit)) "u"
        (some ⟨"T", 100, [⟨"a", "720p", "mp4", .inl 1, "1280x720", false, "ua"⟩,
          ⟨"b", "360p", "mp4", .inl 2, "640x360", true, "ub"⟩]⟩)
        (fun _ => some ()) (fun _ => .ok []) 0).requestedFormat = some "b" ∧
    (handleGetFormats ([] : List (StoredVideo Unit)) "u"
        (some ⟨"T", 100, [⟨"a", "720p", "mp4", .inl 1, "1280x720", false, "ua"⟩,
          ⟨"b", "360p", "mp4", .inl 2, "640x360", true, "ub"⟩]⟩)
        (fun _ => some ()) (fun _ => .ok []) 0).result =
      .ok ⟨"u", "T", (), 0, 100, []⟩ := by
  refine ⟨?_, rfl⟩
  exact (handleGetFormats_preview_format [] "u"
    ⟨"T", 100, [⟨"a", "720p", "mp4", .inl 1, "1280x720", false, "ua"⟩,
      ⟨"b", "360p", "mp4", .inl 2, "640x360", true, "ub"⟩]⟩
    (fun _ => some ()) (fun _ => .ok []) 0 rfl).1
    ⟨"b", "360p", "mp4", .inl 2, "640x360", true, "ub"⟩ rfl

/-- C8.  Atomic persistence: on a cache miss, when the run surfaces an
error (format query failed, no audio format, preview download failed, or
thumbnail generation failed) the store is left unchanged — no partial
record is written; when the run succeeds, the store received exactly one
write, of the fully constructed record, which requires the `/formats`
response, the preview download and thumbnail generation all to have
succeeded. -/
theorem handleGetFormats_atomic_write {β : Type} (store : List (StoredVideo β))
    (u : String) (resp : Option VideoInfo) (download : String → Option β)
    (genThumbs : β → Except String (List String)) (now : ℤ)
    (hmiss : getVideo store u = none) :
    (∀ msg, (handleGetFormats store u resp download genThumbs now).result = .error msg →
        (handleGetFormats store u resp download genThumbs now).store = store) ∧
    (∀ r, (handleGetFormats store u resp download genThumbs now).result = .ok r →
        (handleGetFormats store u resp download genThumbs now).store = storeVideo store r ∧
        ∃ info f b thumbs, resp = some info ∧
          info.formats.find? (fun g => g.has_audio) = some f ∧
          download f.format_id = some b ∧ genThumbs b = .ok thumbs ∧
          r = ⟨u, info.title, b, now, info.duration, thumbs⟩) := by
  rcases hresp : resp with _ | info
  · refine ⟨fun msg _ => ?_, fun r hr => ?_⟩
    · simp [handleGetFormats, hmiss]
    · simp only [handleGetFormats, hmiss] at hr
      exact Except.noConfusion hr
  · rcases hfind : info.formats.find? (fun g => g.has_audio) with _ | f
    · refine ⟨fun msg _ => ?_, fun r hr => ?_⟩
      · simp [handleGetFormats, hmiss, hfind]
      · simp only [handleGetFormats, hmiss, hfind] at hr
        exact Except.noConfusion hr
    · rcases hd : download f.format_id with _ | b
      · refine ⟨fun msg _ => ?_, fun r hr => ?_⟩
        · simp [handleGetFormats, hmiss, hfind, hd]
        · simp only [handleGetFormats, hmiss, hfind, hd] at hr
          exact Except.noConfusion hr
      · rcases ht : genThumbs b with msg | thumbs
        · refine ⟨fun msg' _ => ?_, fun r hr => ?_⟩
          · simp [handleGetFormats, hmiss, hfind, hd, ht]
          · simp only [handleGetFormats, hmiss, hfind, hd, ht] at hr
            exact Except.noConfusion hr
        · refine ⟨fun msg hr => ?_, fun r hr => ?_⟩
          · simp only [handleGetFormats, hmiss, hfind, hd, ht] at hr
            exact Except.noConfusion hr
          · simp only [handleGetFormats, hmiss, hfind, hd, ht] at hr
            cases hr
            refine ⟨?_, info, f, b, thumbs, rfl, hfind, hd, ht, rfl⟩
            simp [handleGetFormats, hmiss, hfind, hd, ht]

/-- C8 (witness): a failing fetch (no audio-bearing format) leaves a
nonempty store exactly as it was. -/
theorem handleGetFormats_atomic_write_witness :
    (handleGetFormats [⟨"other", "t", (), 0, 1, []⟩] "u"
        (some ⟨"T", 100, [⟨"a", "720p", "mp4", .inl 1, "1280x720", false, "ua"⟩]⟩)
        (fun _ => some ()) (fun _ => Except.ok []) 0).result =
      .error "No suitable preview format found" ∧
    (handleGetFormats [⟨"other", "t", (), 0, 1, []⟩] "u"
        (some ⟨"T", 100, [⟨"a", "720p", "mp4", .inl 1, "1280x720", false, "ua"⟩]⟩)
        (fun _ => some ()) (fun _ => Except.ok []) 0).store =
      [⟨"other", "t", (), 0, 1, []⟩] := by
  refine ⟨rfl, ?_⟩
  exact (handleGetFormats_atomic_write [⟨"other", "t", (), 0, 1, []⟩] "u"
    (some ⟨"T", 100, [⟨"a", "720p", "mp4", .inl 1, "1280x720", false, "ua"⟩]⟩)
    (fun _ => some ()) (fun _ => Except.ok []) 0 (by decide)).1
    "No suitable preview format found" rfl

theorem thumbLoop_all_good {α : Type} (capture : ℚ → α) (seekMs : ℕ → Option ℕ)
    (D : ℚ) (N : ℕ) :
    ∀ (is : List ℕ), (∀ i ∈ is, ∃ d, seekMs i = some d ∧ d ≤ seekTimeoutMs) →
    ∀ (elapsed : ℕ) (acc : List α) (evs : List (ℕ × TEv)),
      (thumbLoop capture seekMs D N elapsed acc evs is).outcome =
        .ok (acc ++ is.map (fun i => capture (sampleTime D N i))) ∧
      (thumbLoop capture seekMs D N elapsed acc evs is).settleAt =
        elapsed + (is.map (fun i => (seekMs i).getD 0)).sum := by
  intro is
  induction is with
  | nil => intro _ elapsed acc evs; simp [thumbLoop]
  | cons i rest ih =>
    intro h elapsed acc evs
    obtain ⟨d, hd, hle⟩ := h i (List.mem_cons_self i rest)
    simp only [thumbLoop, hd, if_neg (not_lt.mpr hle)]
    obtain ⟨ho, hs⟩ := ih (fun j hj => h j (List.mem_cons_of_mem i hj))
      (elapsed + d) (acc ++ [capture (sampleTime D N i)]) _
    refine ⟨?_, ?_⟩
    · rw [ho]; simp
    · rw [hs]; simp [hd]; omega

theorem thumbLoop_first_bad {α : Type} (capture : ℚ → α) (seekMs : ℕ → Option ℕ)
    (D : ℚ) (N : ℕ) :
    ∀ (is₁ : List ℕ) (k : ℕ) (is₂ : List ℕ),
      (∀ i ∈ is₁, ∃ d, seekMs i = some d ∧ d ≤ seekTimeoutMs) → seekBad seekMs k →
    ∀ (elapsed : ℕ) (acc : List α) (evs : List (ℕ × TEv)),
      (thumbLoop capture seekMs D N elapsed acc evs (is₁ ++ k :: is₂)).outcome = .error () ∧
      (thumbLoop capture seekMs D N elapsed acc evs (is₁ ++ k :: is₂)).settleAt =
        elapsed + (is₁.map (fun i => (seekMs i).getD 0)).sum + seekTimeoutMs := by
  intro is₁
  induction is₁ with
  | nil =>
    intro k is₂ _ hbad elapsed acc evs
    rcases hbad with hnone | ⟨d, hd, hlt⟩
    · simp [thumbLoop, hnone]
    · simp [thumbLoop, hd, if_pos hlt]
  | cons i rest ih =>
    intro k is₂ hgood hbad elapsed acc evs
    obtain ⟨d, hd, hle⟩ := hgood i (List.mem_cons_self i rest)
    simp only [List.cons_append, thumbLoop, hd, if_neg (not_lt.mpr hle), List.append_eq]
    obtain ⟨ho, hs⟩ := ih k is₂ (fun j hj => hgood j (List.mem_cons_of_mem i hj)) hbad
      (elapsed + d) (acc ++ [capture (sampleTime D N i)]) _
    refine ⟨ho, ?_⟩
    rw [hs]
    simp [hd]
    omega

theorem thumbLoop_ok_length {α : Type} (capture : ℚ → α) (seekMs : ℕ → Option ℕ)
    (D : ℚ) (N : ℕ) :
    ∀ (is : List ℕ) (elapsed : ℕ) (acc : List α) (evs : List (ℕ × TEv)) (l : List α),
      (thumbLoop capture seekMs D N elapsed acc evs is).outcome = .ok l →
      l.length = acc.length + is.length := by
  intro is
  induction is with
  | nil =>
    intro elapsed acc evs l h
    simp only [thumbLoop] at h
    cases h
    simp
  | cons i rest ih =>
    intro elapsed acc evs l h
    rcases hd : seekMs i with _ | d
    · simp only [thumbLoop, hd] at h
      exact Except.noConfusion h
    · by_cases hlt : seekTimeoutMs < d
      · simp only [thumbLoop, hd, if_pos hlt] at h
        exact Except.noConfusion h
      · simp only [thumbLoop, hd, if_neg hlt] at h
        have := ih _ _ _ _ h
        simp at this ⊢
        omega

theorem thumbLoop_revoke_at_settle {α : Type} (capture : ℚ → α) (seekMs : ℕ → Option ℕ)
    (D : ℚ) (N : ℕ) :
    ∀ (is : List ℕ) (elapsed : ℕ) (acc : List α) (evs : List (ℕ × TEv)),
      ((thumbLoop capture seekMs D N elapsed acc evs is).settleAt, TEv.revoke) ∈
        (thumbLoop capture seekMs D N elapsed acc evs is).events := by
  intro is
  induction is with
  | nil => intro elapsed acc evs; simp [thumbLoop]
  | cons i rest ih =>
    intro elapsed acc evs
    rcases hd : seekMs i with _ | d
    · simp [thumbLoop, hd]
    · by_cases hlt : seekTimeoutMs < d
      · simp [thumbLoop, hd, if_pos hlt]
      · simp only [thumbLoop, hd, if_neg hlt]
        exact ih _ _ _

theorem thumbLoop_no_zero_timer {α : Type} (capture : ℚ → α) (seekMs : ℕ → Option ℕ)
    (D : ℚ) (N : ℕ) :
    ∀ (is : List ℕ) (elapsed : ℕ) (acc : List α) (evs : List (ℕ × TEv)),
      (∀ t, (t, TEv.clearT 0) ∉ evs ∧ (t, TEv.fireT 0) ∉ evs) →
      ∀ t, (t, TEv.clearT 0) ∉ (thumbLoop capture seekMs D N elapsed acc evs is).events ∧
        (t, TEv.fireT 0) ∉ (thumbLoop capture seekMs D N elapsed acc evs is).events := by
  intro is
  induction is with
  | nil =>
    intro elapsed acc evs hevs t
    simp only [thumbLoop, List.mem_append]
    constructor
    · rintro (h | h)
      · exact (hevs t).1 h
      · simp at h
    · rintro (h | h)
      · exact (hevs t).2 h
      · simp at h
  | cons i rest ih =>
    intro elapsed acc evs hevs t
    rcases hd : seekMs i with _ | d
    · simp only [thumbLoop, hd, List.mem_append]
      constructor
      · rintro (h | h)
        · exact (hevs t).1 h
        · simp at h
      · rintro (h | h)
        · exact (hevs t).2 h
        · simp at h
    · by_cases hlt : seekTimeoutMs < d
      · simp only [thumbLoop, hd, if_pos hlt, List.mem_append]
        constructor
        · rintro (h | h)
          · exact (hevs t).1 h
          · simp at h
        · rintro (h | h)
          · exact (hevs t).2 h
          · simp at h
      · simp only [thumbLoop, hd, if_neg hlt]
        apply ih
        intro t'
        constructor
        · intro h
          rcases List.mem_append.mp h with h' | h'
          · exact (hevs t').1 h'
          · simp at h'
        · intro h
          rcases List.mem_append.mp h with h' | h'
          · exact (hevs t').2 h'
          · simp at h'

theorem generateThumbnails_true_eval {α : Type} (capture : ℚ → α)
    (seekMs : ℕ → Option ℕ) (D : ℚ) (N : ℕ) :
    generateThumbnails true capture seekMs D N =
      (if (thumbLoop capture seekMs D N 0 [] [] (List.range N)).settleAt ≤ totalTimeoutMs then
        (match (thumbLoop capture seekMs D N 0 [] [] (List.range N)).outcome with
         | .ok l => .ok l
         | .error _ => .error ThumbErr.seekTimeout)
      else .error ThumbErr.generationTimeout) := by
  unfold generateThumbnails generateThumbnailsRun
  by_cases h : (thumbLoop capture seekMs D N 0 [] [] (List.range N)).settleAt ≤ totalTimeoutMs
  · simp only [if_pos h]
  · simp only [if_neg h]

theorem gtEvents_true {α : Type} (capture : ℚ → α) (seekMs : ℕ → Option ℕ)
    (D : ℚ) (N : ℕ) :
    gtEvents true capture seekMs D N =
      (0, TEv.createURL) :: (0, TEv.setT 0) ::
        (thumbLoop capture seekMs D N 0 [] [] (List.range N)).events ++
        [(totalTimeoutMs, TEv.fireT 0), (totalTimeoutMs, TEv.revoke)] := by
  unfold gtEvents generateThumbnailsRun
  by_cases h : (thumbLoop capture seekMs D N 0 [] [] (List.range N)).settleAt ≤ totalTimeoutMs
  · simp only [if_pos h]
  · simp only [if_neg h]

theorem gtSettleAt_true_le {α : Type} (capture : ℚ → α) (seekMs : ℕ → Option ℕ)
    (D : ℚ) (N : ℕ)
    (h : (thumbLoop capture seekMs D N 0 [] [] (List.range N)).settleAt ≤ totalTimeoutMs) :
    gtSettleAt true capture seekMs D N =
      (thumbLoop capture seekMs D N 0 [] [] (List.range N)).settleAt := by
  unfold gtSettleAt generateThumbnailsRun
  simp only [if_pos h]

theorem gtSettleAt_true_gt {α : Type} (capture : ℚ → α) (seekMs : ℕ → Option ℕ)
    (D : ℚ) (N : ℕ)
    (h : ¬ (thumbLoop capture seekMs D N 0 [] [] (List.range N)).settleAt ≤ totalTimeoutMs) :
    gtSettleAt true capture seekMs D N = totalTimeoutMs := by
  unfold gtSettleAt generateThumbnailsRun
  simp only [if_neg h]

theorem range_split (k N : ℕ) (h : k < N) :
    List.range N = List.range k ++ k :: (List.range (N - k - 1)).map (fun j => k + 1 + j) := by
  have hN : N = k + (N - k) := by omega
  have hm : N - k = (N - k - 1) + 1 := by omega
  conv_lhs => rw [hN, List.range_add, hm, List.range_succ_eq_map]
  simp only [List.map_cons, List.map_map, Nat.add_zero]
  have hf : ((fun x => k + x) ∘ Nat.succ) = fun j => k + 1 + j := by
    funext j
    simp only [Function.comp, Nat.succ_eq_add_one]
    omega
  rw [hf]

/-- C3.  When every seek completes within its 5-second window and the total
seek latency stays within the 30-second budget, `generateThumbnails`
resolves with exactly `N` images, the `i`-th captured at timestamp
`duration * i / N`, in index order; and for a positive duration and at
least one sample the final sample timestamp `duration * (N-1) / N` is
strictly before the duration. -/
theorem generateThumbnails_success_samples {α : Type} (capture : ℚ → α)
    (seekMs : ℕ → Option ℕ) (D : ℚ) (N : ℕ)
    (hgood : ∀ i < N, ∃ d, seekMs i = some d ∧ d ≤ seekTimeoutMs)
    (htotal : sumSeekMs seekMs N ≤ totalTimeoutMs) :
    generateThumbnails true capture seekMs D N =
      .ok ((List.range N).map (fun i => capture (sampleTime D N i))) ∧
    (0 < D → 0 < N → sampleTime D N (N - 1) < D) := by
  obtain ⟨ho, hs⟩ := thumbLoop_all_good capture seekMs D N (List.range N)
    (fun i hi => hgood i (List.mem_range.mp hi)) 0 [] []
  have hsle : (thumbLoop capture seekMs D N 0 [] [] (List.range N)).settleAt ≤ totalTimeoutMs := by
    rw [hs]
    simpa [sumSeekMs] using htotal
  constructor
  · rw [generateThumbnails_true_eval, if_pos hsle, ho]
    simp
  · intro hD hN
    unfold sampleTime
    rw [div_lt_iff₀ (by exact_mod_cast hN)]
    have hcast : ((N - 1 : ℕ) : ℚ) < (N : ℚ) := by
      exact_mod_cast Nat.sub_lt hN Nat.one_pos
    exact mul_lt_mul_of_pos_left hcast hD

/-- C3 (witness): two samples of a 10-second video with 1-second seeks
give exactly the images captured at 0 and 5 seconds, and the final sample
timestamp 5 is strictly before 10. -/
theorem generateThumbnails_success_samples_witness :
    generateThumbnails true (fun t : ℚ => t) (fun _ => some 1000) 10 2 =
      .ok [0, 5] ∧ sampleTime 10 2 1 < 10 := by
  have h := generateThumbnails_success_samples (fun t : ℚ => t) (fun _ => some 1000) 10 2
    (fun i _ => ⟨1000, rfl, by decide⟩) (by decide)
  constructor
  · rw [h.1]
    simp [List.range_succ, sampleTime]
    norm_num
  · simpa using h.2 (by norm_num) (by norm_num)

/-- C4 (counterexample).  The claim says a seek that does not complete
within 5 seconds makes the call fail with the seek-timeout error.  But the
two timers race: with seven 4-second seeks followed by a hanging eighth
seek, the seek-timeout would fire at 33 s, after the whole-operation timer
at 30 s — the caller receives the generation-timeout error instead. -/
theorem generateThumbnails_timeout_counterexample :
    (fun i => if i < 7 then some 4000 else none : ℕ → Option ℕ) 7 = none ∧
    generateThumbnails true (fun t : ℚ => t)
      (fun i => if i < 7 then some 4000 else none) 100 8 =
      .error ThumbErr.generationTimeout ∧
    ThumbErr.generationTimeout ≠ ThumbErr.seekTimeout := by
  refine ⟨rfl, ?_, by decide⟩
  rfl

/-- C4 (amended).  If the first losing seek's 5-second timer would fire
within the 30-second budget, the call fails with the seek-timeout error;
if every seek completes in time but the accumulated latency exceeds 30
seconds, the call fails with the generation-timeout error regardless of
how many frames were already captured; and in no case does the caller
receive a partial list — a returned list always has exactly `N`
elements. -/
theorem generateThumbnails_timeout_behavior {α : Type} (capture : ℚ → α)
    (seekMs : ℕ → Option ℕ) (D : ℚ) (N : ℕ) :
    (∀ k, k < N → (∀ j ∈ List.range k, ∃ d, seekMs j = some d ∧ d ≤ seekTimeoutMs) →
        seekBad seekMs k → sumSeekMs seekMs k + seekTimeoutMs ≤ totalTimeoutMs →
        generateThumbnails true capture seekMs D N = .error ThumbErr.seekTimeout) ∧
    ((∀ i < N, ∃ d, seekMs i = some d ∧ d ≤ seekTimeoutMs) →
        totalTimeoutMs < sumSeekMs seekMs N →
        generateThumbnails true capture seekMs D N = .error ThumbErr.generationTimeout) ∧
    (∀ l, generateThumbnails true capture seekMs D N = .ok l → l.length = N) := by
  refine ⟨?_, ?_, ?_⟩
  · intro k hk hgoodk hbad hfit
    obtain ⟨ho, hs⟩ := thumbLoop_first_bad capture seekMs D N (List.range k) k
      ((List.range (N - k - 1)).map (fun j => k + 1 + j)) hgoodk hbad 0 [] []
    rw [generateThumbnails_true_eval, range_split k N hk, hs, ho, if_pos
      (by simpa [sumSeekMs] using hfit)]
  · intro hgood htot
    obtain ⟨ho, hs⟩ := thumbLoop_all_good capture seekMs D N (List.range N)
      (fun i hi => hgood i (List.mem_range.mp hi)) 0 [] []
    rw [generateThumbnails_true_eval, hs, if_neg
      (by simpa [sumSeekMs] using not_le.mpr htot)]
  · intro l hl
    rw [generateThumbnails_true_eval] at hl
    by_cases hle : (thumbLoop capture seekMs D N 0 [] [] (List.range N)).settleAt ≤ totalTimeoutMs
    · rw [if_pos hle] at hl
      cases hout : (thumbLoop capture seekMs D N 0 [] [] (List.range N)).outcome with
      | error u =>
        rw [hout] at hl
        exact Except.noConfusion hl
      | ok lo =>
        rw [hout] at hl
        have hlen := thumbLoop_ok_length capture seekMs D N (List.range N) 0 [] [] lo hout
        have hll : lo = l := by cases hl; rfl
        rw [← hll]
        simpa using hlen
    · rw [if_neg hle] at hl
      exact Except.noConfusion hl

/-- C4 (witness): a single immediately hanging seek rejects with the
seek-timeout error (its 5-second timer fires well within the 30-second
budget). -/
theorem generateThumbnails_timeout_behavior_witness :
    generateThumbnails true (fun t : ℚ => t) (fun _ => none) 100 1 =
      .error ThumbErr.seekTimeout :=
  (generateThumbnails_timeout_behavior (fun t : ℚ => t) (fun _ => none) 100 1).1 0
    (by decide) (by simp) (Or.inl rfl) (by decide)

/-- C10.  `generateThumbnails` with `numThumbnails = 0` on a decodable
blob performs zero loop iterations and resolves successfully with the
empty list — no error and no timeout, whatever the seek behaviour. -/
theorem generateThumbnails_zero_count {α : Type} (capture : ℚ → α)
    (seekMs : ℕ → Option ℕ) (D : ℚ) :
    generateThumbnails true capture seekMs D 0 = .ok [] := rfl

theorem mem_timersSet_of {evs : List (ℕ × TEv)} {s t i : ℕ}
    (h : (t, TEv.setT i) ∈ evs) (ht : t ≤ s) : i ∈ timersSet evs s := by
  unfold timersSet
  exact List.mem_filterMap.mpr ⟨(t, TEv.setT i), h, by simp [ht]⟩

theorem mem_timersStopped_elim {evs : List (ℕ × TEv)} {s i : ℕ}
    (h : i ∈ timersStopped evs s) :
    ∃ t, t ≤ s ∧ ((t, TEv.clearT i) ∈ evs ∨ (t, TEv.fireT i) ∈ evs) := by
  unfold timersStopped at h
  rcases List.mem_filterMap.mp h with ⟨⟨t, ev⟩, hmem, hf⟩
  cases ev with
  | createURL => simp at hf
  | revoke => simp at hf
  | setT j => simp at hf
  | clearT j =>
    by_cases ht : t ≤ s
    · simp only [if_pos ht, Option.some.injEq] at hf
      exact ⟨t, ht, Or.inl (hf ▸ hmem)⟩
    · simp [if_neg ht] at hf
  | fireT j =>
    by_cases ht : t ≤ s
    · simp only [if_pos ht, Option.some.injEq] at hf
      exact ⟨t, ht, Or.inr (hf ▸ hmem)⟩
    · simp [if_neg ht] at hf

/-- C5 (counterexample).  The claim says all pending timers are cleared
before the call completes.  On a plain successful run (one fast seek) the
30-second whole-operation timer — which the code never clears — is still
pending when the promise resolves at 100 ms: it fires only at 30000 ms,
after the call has completed. -/
theorem generateThumbnails_global_timer_pending :
    generateThumbnails true (fun t : ℚ => t) (fun _ => some 100) 10 1 =
      .ok [sampleTime 10 1 0] ∧
    pendingAtSettle (gtEvents true (fun t : ℚ => t) (fun _ => some 100) 10 1)
      (gtSettleAt true (fun t : ℚ => t) (fun _ => some 100) 10 1) = [0] ∧
    ([0] : List ℕ) ≠ [] := by
  refine ⟨rfl, rfl, by decide⟩

/-- C5 (amended).  On every exit path — success, seek timeout, generation
timeout, decode error — the object URL is revoked by the time the call
settles; but the 30-second whole-operation timer is never cleared, and
whenever the call settles strictly before 30 s that timer is still pending
at settlement (it fires afterwards, harmlessly revoking the already
revoked URL and rejecting the already settled promise). -/
theorem generateThumbnails_cleanup_behavior {α : Type} (decodes : Bool)
    (capture : ℚ → α) (seekMs : ℕ → Option ℕ) (D : ℚ) (N : ℕ) :
    revokedBySettle (gtEvents decodes capture seekMs D N)
      (gtSettleAt decodes capture seekMs D N) = true ∧
    (gtSettleAt decodes capture seekMs D N < totalTimeoutMs →
      0 ∈ pendingAtSettle (gtEvents decodes capture seekMs D N)
        (gtSettleAt decodes capture seekMs D N)) := by
  cases decodes with
  | false =>
    constructor
    · rfl
    · intro _
      have hev : gtEvents false capture seekMs D N =
          [(0, TEv.createURL), (0, TEv.setT 0), (0, TEv.revoke),
           (totalTimeoutMs, TEv.fireT 0), (totalTimeoutMs, TEv.revoke)] := rfl
      have hst : gtSettleAt false capture seekMs D N = 0 := rfl
      rw [hev, hst]
      decide
  | true =>
    constructor
    · by_cases hle :
          (thumbLoop capture seekMs D N 0 [] [] (List.range N)).settleAt ≤ totalTimeoutMs
      · rw [gtSettleAt_true_le capture seekMs D N hle, gtEvents_true]
        apply List.any_eq_true.mpr
        refine ⟨((thumbLoop capture seekMs D N 0 [] [] (List.range N)).settleAt,
          TEv.revoke), ?_, by simp⟩
        exact List.mem_cons_of_mem _ (List.mem_cons_of_mem _ (List.mem_append_left _
          (thumbLoop_revoke_at_settle capture seekMs D N (List.range N) 0 [] [])))
      · rw [gtSettleAt_true_gt capture seekMs D N hle, gtEvents_true]
        apply List.any_eq_true.mpr
        refine ⟨(totalTimeoutMs, TEv.revoke), ?_, by simp⟩
        refine List.mem_cons_of_mem _ (List.mem_cons_of_mem _ (List.mem_append_right _ ?_))
        simp
    · intro hlt
      by_cases hle :
          (thumbLoop capture seekMs D N 0 [] [] (List.range N)).settleAt ≤ totalTimeoutMs
      · rw [gtSettleAt_true_le capture seekMs D N hle] at hlt ⊢
        rw [gtEvents_true]
        unfold pendingAtSettle
        apply List.mem_filter.mpr
        refine ⟨?_, ?_⟩
        · exact mem_timersSet_of
            (List.mem_cons_of_mem _ (List.mem_cons_self _ _)) (Nat.zero_le _)
        · rw [decide_eq_true_iff]
          intro hstop
          obtain ⟨t, ht, hmem⟩ := mem_timersStopped_elim hstop
          have hloop := thumbLoop_no_zero_timer capture seekMs D N (List.range N) 0 [] []
            (fun t' => ⟨List.not_mem_nil _, List.not_mem_nil _⟩) t
          rcases hmem with hc | hf
          · rcases List.mem_cons.mp hc with h1 | hc
            · exact absurd h1 (by simp)
            rcases List.mem_cons.mp hc with h2 | hc
            · exact absurd h2 (by simp)
            rcases List.mem_append.mp hc with h3 | h4
            · exact hloop.1 h3
            rcases List.mem_cons.mp h4 with h5 | h6
            · exact absurd h5 (by simp)
            rcases List.mem_cons.mp h6 with h7 | h8
            · exact absurd h7 (by simp)
            exact absurd h8 (List.not_mem_nil _)
          · rcases List.mem_cons.mp hf with h1 | hf
            · exact absurd h1 (by simp)
            rcases List.mem_cons.mp hf with h2 | hf
            · exact absurd h2 (by simp)
            rcases List.mem_append.mp hf with h3 | h4
            · exact hloop.2 h3
            rcases List.mem_cons.mp h4 with h5 | h6
            · have htt : t = totalTimeoutMs := congrArg Prod.fst h5
              rw [htt] at ht
              exact absurd ht (not_le.mpr hlt)
            rcases List.mem_cons.mp h6 with h7 | h8
            · exact absurd h7 (by simp)
            exact absurd h8 (List.not_mem_nil _)
      · rw [gtSettleAt_true_gt capture seekMs D N hle] at hlt
        exact absurd hlt (lt_irrefl _)

/-- C5 (witness): a concrete successful run (one 200 ms seek) has the URL
revoked by settlement while timer 0 (the 30-second timer) is still
pending. -/
theorem generateThumbnails_cleanup_behavior_witness :
    revokedBySettle (gtEvents true (fun t : ℚ => t) (fun _ => some 200) 10 1)
      (gtSettleAt true (fun t : ℚ => t) (fun _ => some 200) 10 1) = true ∧
    0 ∈ pendingAtSettle (gtEvents true (fun t : ℚ => t) (fun _ => some 200) 10 1)
      (gtSettleAt true (fun t : ℚ => t) (fun _ => some 200) 10 1) := by
  have h := generateThumbnails_cleanup_behavior true (fun t : ℚ => t) (fun _ => some 200) 10 1
  exact ⟨h.1, h.2 (by decide)⟩

end YtdlGui
